import Mathlib

/-!
# Verification of the scalarfs virtual-filesystem layer

A shallow embedding of the inline-content URI codecs, the variable-store
filesystem, the path-variable glob engine and the decompression delegate,
together with theorems settling the specification's claims about them.

C++ byte strings are modelled as `List Nat` (each element a byte value) for
the codec layer, and as `List Char` for the path/variable layer where the
source only ever manipulates ASCII path text.
-/

namespace ScalarFS

/-- The byte content of an ASCII string literal, as it sits in a C++
`std::string`. -/
def bytes (s : String) : List Nat := s.data.map Char.toNat

/-- The character content of a C++ `std::string` holding path text. -/
def cs (s : String) : List Char := s.data

/-- Value of an ASCII hex digit (`0-9`, `A-F`, `a-f`), `none` otherwise. -/
def hexDigitVal? (c : Nat) : Option Nat :=
  if 48 ≤ c ∧ c ≤ 57 then some (c - 48)
  else if 65 ≤ c ∧ c ≤ 70 then some (c - 55)
  else if 97 ≤ c ∧ c ≤ 102 then some (c - 87)
  else none

/-- `0-9A-Fa-f`, the explicit check `DecodeURLEncoded` performs. -/
def isHexDigit (c : Nat) : Bool := (hexDigitVal? c).isSome

/-- C `isspace` in the default locale: space, `\t`, `\n`, `\v`, `\f`, `\r`. -/
def isSpaceByte (c : Nat) : Bool := decide (c = 32 ∨ (9 ≤ c ∧ c ≤ 13))

/-- `strtol(hex, &end, 16)` on a two-character buffer followed by the check
`end == hex + 2`, then `static_cast<char>` truncation of the value.
`strtol` consumes both characters exactly when they are two hex digits, or
an optional whitespace/sign character followed by a single hex digit (the
`0x` form never reaches a digit inside two characters). A `-` sign makes
the value negative; the cast to a byte takes it modulo 256. -/
def strtol2 (c1 c2 : Nat) : Option Nat :=
  match hexDigitVal? c1, hexDigitVal? c2 with
  | some d1, some d2 => some (d1 * 16 + d2)
  | none, some d2 =>
    if isSpaceByte c1 || c1 == 43 then some d2
    else if c1 == 45 then some ((256 - d2) % 256)
    else none
  | _, none => none

/-- Uppercase hex digit character, as produced by `snprintf("%02X")`. -/
def hexUpper (d : Nat) : Nat := if d < 10 then 48 + d else 55 + d

/-! ## Base64

Modelled from the spec: DuckDB's `Blob::ToBase64` / `Blob::FromBase64` are
external to this repository; §4.2 says base64 "delegates to a standard
base64 decoder", so they are modelled as the standard RFC 4648 codec with
`=` padding. -/

/-- Character for a six-bit group (standard base64 alphabet). -/
def b64chr (k : Nat) : Nat :=
  if k < 26 then 65 + k
  else if k < 52 then 97 + (k - 26)
  else if k < 62 then 48 + (k - 52)
  else if k = 62 then 43
  else 47

/-- Modelled from the spec: standard base64 encoding (`Blob::ToBase64`). -/
def b64encode : List Nat → List Nat
  | a :: b :: c :: rest =>
    b64chr (a / 4) :: b64chr (a % 4 * 16 + b / 16) ::
      b64chr (b % 16 * 4 + c / 64) :: b64chr (c % 64) :: b64encode rest
  | [a, b] => [b64chr (a / 4), b64chr (a % 4 * 16 + b / 16), b64chr (b % 16 * 4), 61]
  | [a] => [b64chr (a / 4), b64chr (a % 4 * 16), 61, 61]
  | [] => []

/-- Six-bit value of a base64 alphabet character. -/
def sextet? (c : Nat) : Option Nat :=
  if 65 ≤ c ∧ c ≤ 90 then some (c - 65)
  else if 97 ≤ c ∧ c ≤ 122 then some (c - 97 + 26)
  else if 48 ≤ c ∧ c ≤ 57 then some (c - 48 + 52)
  else if c = 43 then some 62
  else if c = 47 then some 63
  else none

/-- Modelled from the spec: standard base64 decoding (`Blob::FromBase64`). -/
def b64decode : List Nat → Option (List Nat)
  | [] => some []
  | c0 :: c1 :: c2 :: c3 :: rest => do
    let s0 ← sextet? c0
    let s1 ← sextet? c1
    if c2 = 61 ∧ c3 = 61 ∧ rest = [] then
      some [s0 * 4 + s1 / 16]
    else do
      let s2 ← sextet? c2
      if c3 = 61 ∧ rest = [] then
        some [s0 * 4 + s1 / 16, s1 % 16 * 16 + s2 / 4]
      else do
        let s3 ← sextet? c3
        let tail ← b64decode rest
        some ((s0 * 4 + s1 / 16) :: (s1 % 16 * 16 + s2 / 4) :: (s2 % 4 * 64 + s3) :: tail)
  | _ => none

/-! ## Encoders (`scalarfs_functions.cpp`) -/

/-- `EncodeDataUri`: base64-encode and attach the `data:;base64,` marker. -/
def EncodeDataUri (content : List Nat) : List Nat :=
  bytes "data:;base64," ++ b64encode content

/-- `EncodeVarcharUri`: attach the `data+varchar:` marker, content raw. -/
def EncodeVarcharUri (content : List Nat) : List Nat :=
  bytes "data+varchar:" ++ content

/-- One iteration of `EncodeBlobUri`'s escaping loop over an
`unsigned char`. -/
def escapeBlobByte (c : Nat) : List Nat :=
  if c = 92 then [92, 92]
  else if c = 10 then [92, 110]
  else if c = 13 then [92, 114]
  else if c = 9 then [92, 116]
  else if c = 0 then [92, 48]
  else if c < 32 ∨ c = 127 then [92, 120, hexUpper (c / 16), hexUpper (c % 16)]
  else [c]

/-- `EncodeBlobUri`: attach the `data+blob:` marker and escape the bytes. -/
def EncodeBlobUri (content : List Nat) : List Nat :=
  bytes "data+blob:" ++ content.flatMap escapeBlobByte

/-- One iteration of `EncodeScalarfsUri`'s scanning loop: the state is
`(safe_for_varchar, escape_count)`. -/
def scalarfsScanStep (st : Bool × Nat) (c : Nat) : Bool × Nat :=
  if c = 92 then (st.1, st.2 + 1)
  else if c < 32 ∧ c ≠ 10 ∧ c ≠ 13 ∧ c ≠ 9 then (false, st.2 + 1)
  else if c = 127 then (false, st.2 + 1)
  else st

/-- `EncodeScalarfsUri`: scan the content, then pick varchar, blob or
base64 form. -/
def EncodeScalarfsUri (content : List Nat) : List Nat :=
  let st := content.foldl scalarfsScanStep (true, 0)
  if st.1 then EncodeVarcharUri content
  else if st.2 * 10 < content.length then EncodeBlobUri content
  else EncodeDataUri content

/-! ## Decoders (`scalarfs_functions.cpp`) -/

/-- The decode-error conditions the two source files raise, with the
position data their messages format. -/
inductive DecodeErr where
  /-- wrong or missing protocol marker on the URI -/
  | badUriType : DecodeErr
  /-- `data:` URI with no `,` separator -/
  | missingComma : DecodeErr
  /-- base64 payload the decoder rejects -/
  | badBase64 : DecodeErr
  /-- `\c` with `c` outside the escape set, at a content position -/
  | badEscapeChar (c pos : Nat) : DecodeErr
  /-- `\x` whose two following characters `strtol` does not consume -/
  | badHexEscape (c1 c2 pos : Nat) : DecodeErr
  /-- `\x` with fewer than two characters after it -/
  | incompleteHexEscape (pos : Nat) : DecodeErr
  /-- filesystem blob parser: `\` as the very last character -/
  | trailingEscape : DecodeErr
  /-- filesystem percent decoder: `%` with fewer than two characters after -/
  | incompletePercent (pos : Nat) : DecodeErr
  /-- filesystem percent decoder: `%c1c2` where `c1c2` is not two hex digits -/
  | badPercentHex (c1 c2 pos : Nat) : DecodeErr
  deriving DecidableEq

/-- `uri.find(',')`: split at the first comma, `none` when there is none. -/
def splitComma : List Nat → Option (List Nat × List Nat)
  | [] => none
  | c :: rest =>
    if c = 44 then some ([], rest)
    else
      match splitComma rest with
      | none => none
      | some (pre, post) => some (c :: pre, post)

/-- `metadata.find(";base64") != npos`: substring containment. -/
def containsSeq (needle : List Nat) : List Nat → Bool
  | [] => needle.isEmpty
  | c :: rest => needle.isPrefixOf (c :: rest) || containsSeq needle rest

/-- The URL-decode loop of the scalar `DecodeDataUri` (lines 117-131): a
`%` followed by at least two characters is treated as an escape only when
`strtol` consumes both of them; every other `%` (truncated or non-hex) is
emitted literally and scanning continues on the next character. This loop
never raises. -/
def percentDecodeScalar : List Nat → List Nat
  | [] => []
  | c :: rest =>
    if c = 37 then
      match rest with
      | c1 :: c2 :: rest₂ =>
        match strtol2 c1 c2 with
        | some v => v :: percentDecodeScalar rest₂
        | none => 37 :: percentDecodeScalar (c1 :: c2 :: rest₂)
      | [c1] => 37 :: percentDecodeScalar [c1]
      | [] => [37]
    else c :: percentDecodeScalar rest

/-- Scalar `DecodeDataUri` (`from_data_uri`). -/
def DecodeDataUri (uri : List Nat) : Except DecodeErr (List Nat) :=
  if (bytes "data:").isPrefixOf uri then
    match splitComma uri with
    | none => .error .missingComma
    | some (before, data) =>
      if containsSeq (bytes ";base64") (before.drop 5) then
        match b64decode data with
        | some r => .ok r
        | none => .error .badBase64
      else .ok (percentDecodeScalar data)
  else .error .badUriType

/-- Scalar `DecodeVarcharUri` (`from_varchar_uri`). -/
def DecodeVarcharUri (uri : List Nat) : Except DecodeErr (List Nat) :=
  if (bytes "data+varchar:").isPrefixOf uri then .ok (uri.drop 13)
  else .error .badUriType

/-- The escape-decoding loop of the scalar `DecodeBlobUri` (lines 157-203),
with `i` the reported content position. A `\` that is the last character
takes the non-escape branch (`i + 1 < content.size()` fails) and is
emitted literally. -/
def decodeBlobScalarAux (i : Nat) : List Nat → Except DecodeErr (List Nat)
  | [] => .ok []
  | c :: rest =>
    if c = 92 then
      match rest with
      | [] => .ok [92]
      | n :: rest₂ =>
        if n = 92 then (92 :: ·) <$> decodeBlobScalarAux (i + 2) rest₂
        else if n = 110 then (10 :: ·) <$> decodeBlobScalarAux (i + 2) rest₂
        else if n = 114 then (13 :: ·) <$> decodeBlobScalarAux (i + 2) rest₂
        else if n = 116 then (9 :: ·) <$> decodeBlobScalarAux (i + 2) rest₂
        else if n = 48 then (0 :: ·) <$> decodeBlobScalarAux (i + 2) rest₂
        else if n = 120 then
          match rest₂ with
          | c1 :: c2 :: rest₃ =>
            match strtol2 c1 c2 with
            | some v => (v :: ·) <$> decodeBlobScalarAux (i + 4) rest₃
            | none => .error (.badHexEscape c1 c2 i)
          | _ => .error (.incompleteHexEscape i)
        else .error (.badEscapeChar n i)
    else (c :: ·) <$> decodeBlobScalarAux (i + 1) rest

/-- Scalar `DecodeBlobUri` (`from_blob_uri`). -/
def DecodeBlobUri (uri : List Nat) : Except DecodeErr (List Nat) :=
  if (bytes "data+blob:").isPrefixOf uri then decodeBlobScalarAux 0 (uri.drop 10)
  else .error .badUriType

/-! ## The data-URI filesystem (`data_uri_filesystem.cpp`) -/

namespace DataURIFileSystem

/-- `DecodeURLEncoded`: the filesystem's strict percent decoder. Both
characters after `%` are validated to be hex digits before `strtol` runs,
and a `%` with fewer than two following characters is an error. -/
def DecodeURLEncoded (i : Nat) : List Nat → Except DecodeErr (List Nat)
  | [] => .ok []
  | c :: rest =>
    if c = 37 then
      match rest with
      | c1 :: c2 :: rest₂ =>
        match hexDigitVal? c1, hexDigitVal? c2 with
        | some d1, some d2 => ((d1 * 16 + d2) :: ·) <$> DecodeURLEncoded (i + 3) rest₂
        | _, _ => .error (.badPercentHex c1 c2 i)
      | _ => .error (.incompletePercent i)
    else (c :: ·) <$> DecodeURLEncoded (i + 1) rest

/-- `DecodeBase64`: empty payload decodes to empty content, otherwise
delegate to the base64 decoder. -/
def DecodeBase64 (data : List Nat) : Except DecodeErr (List Nat) :=
  if data.isEmpty then .ok []
  else
    match b64decode data with
    | some r => .ok r
    | none => .error .badBase64

/-- `DecodeBlobEscapes`: the filesystem's blob-escape decoder. Unlike the
scalar loop, a trailing `\` is an error here. -/
def DecodeBlobEscapes (i : Nat) : List Nat → Except DecodeErr (List Nat)
  | [] => .ok []
  | c :: rest =>
    if c = 92 then
      match rest with
      | [] => .error .trailingEscape
      | n :: rest₂ =>
        if n = 92 then (92 :: ·) <$> DecodeBlobEscapes (i + 2) rest₂
        else if n = 110 then (10 :: ·) <$> DecodeBlobEscapes (i + 2) rest₂
        else if n = 114 then (13 :: ·) <$> DecodeBlobEscapes (i + 2) rest₂
        else if n = 116 then (9 :: ·) <$> DecodeBlobEscapes (i + 2) rest₂
        else if n = 48 then (0 :: ·) <$> DecodeBlobEscapes (i + 2) rest₂
        else if n = 120 then
          match rest₂ with
          | c1 :: c2 :: rest₃ =>
            match strtol2 c1 c2 with
            | some v => (v :: ·) <$> DecodeBlobEscapes (i + 4) rest₃
            | none => .error (.badHexEscape c1 c2 i)
          | _ => .error (.incompleteHexEscape i)
        else .error (.badEscapeChar n i)
    else (c :: ·) <$> DecodeBlobEscapes (i + 1) rest

/-- `ParseDataURI`: split at the first comma, dispatch on the `;base64`
marker in the metadata. -/
def ParseDataURI (uri : List Nat) : Except DecodeErr (List Nat) :=
  match splitComma uri with
  | none => .error .missingComma
  | some (before, data) =>
    if containsSeq (bytes ";base64") (before.drop 5) then DecodeBase64 data
    else DecodeURLEncoded 0 data

/-- `ParseVarcharURI`: everything after the marker is literal content. -/
def ParseVarcharURI (uri : List Nat) : List Nat := uri.drop 13

/-- `ParseBlobURI`: strip the marker and decode escapes. -/
def ParseBlobURI (uri : List Nat) : Except DecodeErr (List Nat) :=
  DecodeBlobEscapes 0 (uri.drop 10)

/-- `CanHandleFile`: the three inline-content markers. -/
def CanHandleFile (p : List Nat) : Bool :=
  (bytes "data:").isPrefixOf p || (bytes "data+varchar:").isPrefixOf p ||
    (bytes "data+blob:").isPrefixOf p

/-- `FileExists`: data URIs "exist" whenever their marker matches. -/
def FileExists (p : List Nat) : Bool := CanHandleFile p

/-- The content produced by `OpenFile`'s read path: dispatch on the
marker, parse, and serve the bytes. -/
def OpenFileContent (p : List Nat) : Except DecodeErr (List Nat) :=
  if (bytes "data+varchar:").isPrefixOf p then .ok (ParseVarcharURI p)
  else if (bytes "data+blob:").isPrefixOf p then ParseBlobURI p
  else if (bytes "data:").isPrefixOf p then ParseDataURI p
  else .error .badUriType

end DataURIFileSystem

/-! ## Round-trip lemmas for the three literal codecs -/

theorem isPrefixOf_append {α : Type} [BEq α] [LawfulBEq α] (pre l : List α) :
    pre.isPrefixOf (pre ++ l) = true := by
  rw [List.isPrefixOf_iff_prefix]
  exact List.prefix_append pre l

theorem hexDigitVal?_hexUpper {d : Nat} (hd : d < 16) :
    hexDigitVal? (hexUpper d) = some d := by
  unfold hexUpper hexDigitVal?
  split_ifs <;> first | (simp only [Option.some.injEq]; omega) | (exfalso; omega)

theorem strtol2_hexUpper {c : Nat} (hc : c < 256) :
    strtol2 (hexUpper (c / 16)) (hexUpper (c % 16)) = some c := by
  have h1 := hexDigitVal?_hexUpper (d := c / 16) (by omega)
  have h2 := hexDigitVal?_hexUpper (d := c % 16) (by omega)
  unfold strtol2
  rw [h1, h2]
  simp only [Option.some.injEq]
  omega

theorem decodeBlobScalarAux_encode (C : List Nat) :
    ∀ i, decodeBlobScalarAux i (C.flatMap escapeBlobByte) = .ok C := by
  induction C with
  | nil => intro i; rfl
  | cons c rest ih =>
    intro i
    show decodeBlobScalarAux i (escapeBlobByte c ++ rest.flatMap escapeBlobByte) = _
    by_cases h92 : c = 92
    · subst h92
      rw [show escapeBlobByte 92 = [92, 92] from rfl, List.cons_append,
        List.cons_append, List.nil_append, decodeBlobScalarAux.eq_def]
      simp [ih]
    · by_cases h10 : c = 10
      · subst h10
        rw [show escapeBlobByte 10 = [92, 110] from rfl, List.cons_append,
          List.cons_append, List.nil_append, decodeBlobScalarAux.eq_def]
        simp [ih]
      · by_cases h13 : c = 13
        · subst h13
          rw [show escapeBlobByte 13 = [92, 114] from rfl, List.cons_append,
            List.cons_append, List.nil_append, decodeBlobScalarAux.eq_def]
          simp [ih]
        · by_cases h9 : c = 9
          · subst h9
            rw [show escapeBlobByte 9 = [92, 116] from rfl, List.cons_append,
              List.cons_append, List.nil_append, decodeBlobScalarAux.eq_def]
            simp [ih]
          · by_cases h0 : c = 0
            · subst h0
              rw [show escapeBlobByte 0 = [92, 48] from rfl, List.cons_append,
                List.cons_append, List.nil_append, decodeBlobScalarAux.eq_def]
              simp [ih]
            · by_cases hctl : c < 32 ∨ c = 127
              · have hesc : escapeBlobByte c =
                    [92, 120, hexUpper (c / 16), hexUpper (c % 16)] := by
                  unfold escapeBlobByte
                  split_ifs <;> first | rfl | omega
                have hs := strtol2_hexUpper (c := c) (by omega)
                rw [hesc, List.cons_append, List.cons_append, List.cons_append,
                  List.cons_append, List.nil_append, decodeBlobScalarAux.eq_def]
                simp [hs, ih]
              · have hesc : escapeBlobByte c = [c] := by
                  unfold escapeBlobByte
                  split_ifs <;> first | rfl | omega
                rw [hesc, List.cons_append, List.nil_append,
                  decodeBlobScalarAux.eq_def]
                simp [h92, ih]

theorem blob_roundtrip (C : List Nat) : DecodeBlobUri (EncodeBlobUri C) = .ok C := by
  unfold DecodeBlobUri EncodeBlobUri
  rw [isPrefixOf_append (bytes "data+blob:") (C.flatMap escapeBlobByte)]
  have hdrop : ((bytes "data+blob:") ++ C.flatMap escapeBlobByte).drop 10 =
      C.flatMap escapeBlobByte := by
    have h := List.drop_left (bytes "data+blob:") (C.flatMap escapeBlobByte)
    rwa [show (bytes "data+blob:").length = 10 from rfl] at h
  simp only [if_true, hdrop]
  exact decodeBlobScalarAux_encode C 0

theorem varchar_roundtrip (C : List Nat) :
    DecodeVarcharUri (EncodeVarcharUri C) = .ok C := by
  unfold DecodeVarcharUri EncodeVarcharUri
  rw [isPrefixOf_append (bytes "data+varchar:") C]
  have hdrop : ((bytes "data+varchar:") ++ C).drop 13 = C := by
    have h := List.drop_left (bytes "data+varchar:") C
    rwa [show (bytes "data+varchar:").length = 13 from rfl] at h
  simp only [if_true, hdrop]

theorem sextet?_b64chr {k : Nat} (hk : k < 64) : sextet? (b64chr k) = some k := by
  unfold b64chr sextet?
  split_ifs <;> first | (simp only [Option.some.injEq]; omega) | (exfalso; omega)

theorem b64chr_ne_61 (k : Nat) : b64chr k ≠ 61 := by
  unfold b64chr; split_ifs <;> omega

theorem b64_roundtrip (C : List Nat) (h : ∀ b ∈ C, b < 256) :
    b64decode (b64encode C) = some C := by
  suffices H : ∀ n (l : List Nat), l.length ≤ n → (∀ b ∈ l, b < 256) →
      b64decode (b64encode l) = some l from H C.length C le_rfl h
  intro n
  induction n with
  | zero =>
    intro l hl _
    have : l = [] := List.eq_nil_of_length_eq_zero (Nat.le_zero.mp hl)
    subst this; rfl
  | succ n ih =>
    intro l hl hb
    match l with
    | [] => rfl
    | [a] =>
      have ha : a < 256 := hb a (by simp)
      show b64decode [b64chr (a / 4), b64chr (a % 4 * 16), 61, 61] = some [a]
      have e1 := sextet?_b64chr (k := a / 4) (by omega)
      have e2 := sextet?_b64chr (k := a % 4 * 16) (by omega)
      simp only [b64decode, e1, e2, Option.bind_eq_bind, Option.some_bind]
      rw [if_pos (by simp)]
      simp only [Option.some.injEq, List.cons.injEq, and_true]
      omega
    | [a, b] =>
      have ha : a < 256 := hb a (by simp)
      have hbb : b < 256 := hb b (by simp)
      show b64decode
          [b64chr (a / 4), b64chr (a % 4 * 16 + b / 16), b64chr (b % 16 * 4), 61] =
        some [a, b]
      have e1 := sextet?_b64chr (k := a / 4) (by omega)
      have e2 := sextet?_b64chr (k := a % 4 * 16 + b / 16) (by omega)
      have e3 := sextet?_b64chr (k := b % 16 * 4) (by omega)
      simp only [b64decode, e1, e2, e3, Option.bind_eq_bind, Option.some_bind]
      rw [if_neg (by simp [b64chr_ne_61]), if_pos (by simp)]
      simp only [Option.some.injEq, List.cons.injEq, and_true]
      constructor <;> omega
    | a :: b :: c :: rest =>
      have ha : a < 256 := hb a (by simp)
      have hbb : b < 256 := hb b (by simp)
      have hc : c < 256 := hb c (by simp)
      have hrest : b64decode (b64encode rest) = some rest := by
        apply ih rest _ (fun x hx => hb x (by simp [hx]))
        have := hl; simp only [List.length_cons] at this ⊢; omega
      show b64decode (b64chr (a / 4) :: b64chr (a % 4 * 16 + b / 16) ::
          b64chr (b % 16 * 4 + c / 64) :: b64chr (c % 64) :: b64encode rest) = _
      have e1 := sextet?_b64chr (k := a / 4) (by omega)
      have e2 := sextet?_b64chr (k := a % 4 * 16 + b / 16) (by omega)
      have e3 := sextet?_b64chr (k := b % 16 * 4 + c / 64) (by omega)
      have e4 := sextet?_b64chr (k := c % 64) (by omega)
      simp only [b64decode, e1, e2, e3, e4, Option.bind_eq_bind, Option.some_bind]
      rw [if_neg (by simp [b64chr_ne_61]), if_neg (by simp [b64chr_ne_61])]
      simp only [hrest, Option.some_bind, Option.some.injEq, List.cons.injEq]
      exact ⟨by omega, by omega, by omega, trivial⟩

theorem splitComma_append {pre : List Nat} (post : List Nat) (h : 44 ∉ pre) :
    splitComma (pre ++ 44 :: post) = some (pre, post) := by
  induction pre with
  | nil => rfl
  | cons c cs ih =>
    have hc : c ≠ 44 := fun e => h (by simp [e])
    have ih' := ih (fun hm => h (List.mem_cons_of_mem _ hm))
    simp [splitComma, hc, ih']

theorem data_roundtrip (C : List Nat) (h : ∀ b ∈ C, b < 256) :
    DecodeDataUri (EncodeDataUri C) = .ok C := by
  unfold DecodeDataUri EncodeDataUri
  have hpre : (bytes "data:").isPrefixOf (bytes "data:;base64," ++ b64encode C) = true := by
    have : bytes "data:;base64," ++ b64encode C =
        bytes "data:" ++ (bytes ";base64," ++ b64encode C) := rfl
    rw [this]; exact isPrefixOf_append _ _
  rw [hpre]
  have hsplit : splitComma (bytes "data:;base64," ++ b64encode C) =
      some (bytes "data:;base64", b64encode C) := by
    have : bytes "data:;base64," ++ b64encode C =
        bytes "data:;base64" ++ 44 :: b64encode C := rfl
    rw [this]
    exact splitComma_append _ (by decide)
  simp only [if_true, hsplit]
  have hmeta : containsSeq (bytes ";base64") ((bytes "data:;base64").drop 5) = true := by
    decide
  rw [hmeta]
  simp only [if_true, b64_roundtrip C h]

/-- C1: For every byte string C, decoding the corresponding encoding is the
identity for each of the three literal URI codecs: the base64 data-URI
decoder applied to `EncodeDataUri C` yields C, the varchar decoder applied
to `EncodeVarcharUri C` yields C, and the blob-escape decoder applied to
`EncodeBlobUri C` yields C. -/
theorem roundtrip_literal_uri_codecs (C : List Nat) (h : ∀ b ∈ C, b < 256) :
    DecodeDataUri (EncodeDataUri C) = .ok C ∧
    DecodeVarcharUri (EncodeVarcharUri C) = .ok C ∧
    DecodeBlobUri (EncodeBlobUri C) = .ok C :=
  ⟨data_roundtrip C h, varchar_roundtrip C, blob_roundtrip C⟩

/-- Witness for C1 at the concrete content `"hi!"`. -/
theorem roundtrip_literal_uri_codecs_witness :
    DecodeDataUri (EncodeDataUri (bytes "hi!")) = .ok (bytes "hi!") ∧
    DecodeVarcharUri (EncodeVarcharUri (bytes "hi!")) = .ok (bytes "hi!") ∧
    DecodeBlobUri (EncodeBlobUri (bytes "hi!")) = .ok (bytes "hi!") :=
  roundtrip_literal_uri_codecs (bytes "hi!") (by decide)

/-! ## Blob-escape and percent-decode characterizations (C2, C3)

The grammars below describe, token by token, the inputs each decoder
accepts; the characterization theorems prove the decoders succeed on
exactly these languages. -/

/-- The language accepted by the filesystem's `DecodeBlobEscapes`: a
sequence of tokens, each a non-backslash byte, a two-character simple
escape, or `\xc1c2` where `strtol` consumes both `c1` and `c2`. -/
inductive BlobTokens : List Nat → Prop where
  | nil : BlobTokens []
  | lit {c : Nat} {rest : List Nat} : c ≠ 92 → BlobTokens rest →
      BlobTokens (c :: rest)
  | esc {e : Nat} {rest : List Nat} :
      e = 92 ∨ e = 110 ∨ e = 114 ∨ e = 116 ∨ e = 48 → BlobTokens rest →
      BlobTokens (92 :: e :: rest)
  | hex {c1 c2 v : Nat} {rest : List Nat} : strtol2 c1 c2 = some v →
      BlobTokens rest → BlobTokens (92 :: 120 :: c1 :: c2 :: rest)

/-- The language accepted by the scalar `from_blob_uri` loop: the same
tokens, but additionally a single trailing `\` is accepted (and emitted
literally). -/
inductive BlobTokensScalar : List Nat → Prop where
  | nil : BlobTokensScalar []
  | trail : BlobTokensScalar [92]
  | lit {c : Nat} {rest : List Nat} : c ≠ 92 → BlobTokensScalar rest →
      BlobTokensScalar (c :: rest)
  | esc {e : Nat} {rest : List Nat} :
      e = 92 ∨ e = 110 ∨ e = 114 ∨ e = 116 ∨ e = 48 → BlobTokensScalar rest →
      BlobTokensScalar (92 :: e :: rest)
  | hex {c1 c2 v : Nat} {rest : List Nat} : strtol2 c1 c2 = some v →
      BlobTokensScalar rest → BlobTokensScalar (92 :: 120 :: c1 :: c2 :: rest)

/-- The language accepted by the filesystem's `DecodeURLEncoded`: every
`%` is followed by exactly two hex digits. -/
inductive UrlTokens : List Nat → Prop where
  | nil : UrlTokens []
  | lit {c : Nat} {rest : List Nat} : c ≠ 37 → UrlTokens rest →
      UrlTokens (c :: rest)
  | esc {c1 c2 : Nat} {rest : List Nat} : isHexDigit c1 = true →
      isHexDigit c2 = true → UrlTokens rest → UrlTokens (37 :: c1 :: c2 :: rest)

theorem exists_ok_map {α β γ : Type} (f : α → β) (e : Except γ α) :
    (∃ out, (f <$> e) = .ok out) ↔ ∃ out, e = .ok out := by
  cases e <;> simp [Except.map]

theorem BlobTokens_cons_lit {c : Nat} {rest : List Nat} (hc : c ≠ 92) :
    BlobTokens (c :: rest) ↔ BlobTokens rest := by
  constructor
  · intro h
    cases h with
    | lit _ ht => exact ht
    | esc _ _ => exact absurd rfl hc
    | hex _ _ => exact absurd rfl hc
  · exact fun h => BlobTokens.lit hc h

theorem BlobTokens_cons_esc {e : Nat} {rest : List Nat}
    (he : e = 92 ∨ e = 110 ∨ e = 114 ∨ e = 116 ∨ e = 48) :
    BlobTokens (92 :: e :: rest) ↔ BlobTokens rest := by
  constructor
  · intro h
    cases h with
    | lit hne _ => exact absurd rfl hne
    | esc _ ht => exact ht
    | hex _ _ => rcases he with h | h | h | h | h <;> omega
  · exact fun h => BlobTokens.esc he h

theorem BlobTokens_cons_hex {c1 c2 v : Nat} {rest : List Nat}
    (hs : strtol2 c1 c2 = some v) :
    BlobTokens (92 :: 120 :: c1 :: c2 :: rest) ↔ BlobTokens rest := by
  constructor
  · intro h
    cases h with
    | lit hne _ => exact absurd rfl hne
    | esc he _ => rcases he with h | h | h | h | h <;> omega
    | hex _ ht => exact ht
  · exact fun h => BlobTokens.hex hs h

theorem not_BlobTokens_trailing : ¬ BlobTokens [92] := by
  intro h
  cases h with
  | lit hne _ => exact absurd rfl hne

theorem not_BlobTokens_badEscape {e : Nat} {rest : List Nat}
    (he : ¬ (e = 92 ∨ e = 110 ∨ e = 114 ∨ e = 116 ∨ e = 48)) (hx : e ≠ 120) :
    ¬ BlobTokens (92 :: e :: rest) := by
  intro h
  cases h with
  | lit hne _ => exact absurd rfl hne
  | esc h _ => exact he h
  | hex _ _ => exact hx rfl

theorem not_BlobTokens_shortHex {rest₂ : List Nat} (hshort : rest₂.length < 2) :
    ¬ BlobTokens (92 :: 120 :: rest₂) := by
  intro h
  cases h with
  | lit hne _ => exact absurd rfl hne
  | esc he _ => rcases he with h | h | h | h | h <;> omega
  | hex _ _ => simp at hshort; omega

theorem not_BlobTokens_badHex {c1 c2 : Nat} {rest : List Nat}
    (hs : strtol2 c1 c2 = none) : ¬ BlobTokens (92 :: 120 :: c1 :: c2 :: rest) := by
  intro h
  cases h with
  | lit hne _ => exact absurd rfl hne
  | esc he _ => rcases he with h | h | h | h | h <;> omega
  | hex hv _ => rw [hs] at hv; exact Option.noConfusion hv

theorem BlobTokensScalar_cons_lit {c : Nat} {rest : List Nat} (hc : c ≠ 92) :
    BlobTokensScalar (c :: rest) ↔ BlobTokensScalar rest := by
  constructor
  · intro h
    cases h with
    | trail => exact absurd rfl hc
    | lit _ ht => exact ht
    | esc _ _ => exact absurd rfl hc
    | hex _ _ => exact absurd rfl hc
  · exact fun h => BlobTokensScalar.lit hc h

theorem BlobTokensScalar_cons_esc {e : Nat} {rest : List Nat}
    (he : e = 92 ∨ e = 110 ∨ e = 114 ∨ e = 116 ∨ e = 48) :
    BlobTokensScalar (92 :: e :: rest) ↔ BlobTokensScalar rest := by
  constructor
  · intro h
    cases h with
    | lit hne _ => exact absurd rfl hne
    | esc _ ht => exact ht
    | hex _ _ => rcases he with h | h | h | h | h <;> omega
  · exact fun h => BlobTokensScalar.esc he h

theorem BlobTokensScalar_cons_hex {c1 c2 v : Nat} {rest : List Nat}
    (hs : strtol2 c1 c2 = some v) :
    BlobTokensScalar (92 :: 120 :: c1 :: c2 :: rest) ↔ BlobTokensScalar rest := by
  constructor
  · intro h
    cases h with
    | lit hne _ => exact absurd rfl hne
    | esc he _ => rcases he with h | h | h | h | h <;> omega
    | hex _ ht => exact ht
  · exact fun h => BlobTokensScalar.hex hs h

theorem not_BlobTokensScalar_badEscape {e : Nat} {rest : List Nat}
    (he : ¬ (e = 92 ∨ e = 110 ∨ e = 114 ∨ e = 116 ∨ e = 48)) (hx : e ≠ 120) :
    ¬ BlobTokensScalar (92 :: e :: rest) := by
  intro h
  cases h with
  | lit hne _ => exact absurd rfl hne
  | esc h _ => exact he h
  | hex _ _ => exact hx rfl

theorem not_BlobTokensScalar_shortHex {rest₂ : List Nat}
    (hshort : rest₂.length < 2) : ¬ BlobTokensScalar (92 :: 120 :: rest₂) := by
  intro h
  cases h with
  | lit hne _ => exact absurd rfl hne
  | esc he _ => rcases he with h | h | h | h | h <;> omega
  | hex _ _ => simp at hshort; omega

theorem not_BlobTokensScalar_badHex {c1 c2 : Nat} {rest : List Nat}
    (hs : strtol2 c1 c2 = none) :
    ¬ BlobTokensScalar (92 :: 120 :: c1 :: c2 :: rest) := by
  intro h
  cases h with
  | lit hne _ => exact absurd rfl hne
  | esc he _ => rcases he with h | h | h | h | h <;> omega
  | hex hv _ => rw [hs] at hv; exact Option.noConfusion hv

theorem UrlTokens_cons_lit {c : Nat} {rest : List Nat} (hc : c ≠ 37) :
    UrlTokens (c :: rest) ↔ UrlTokens rest := by
  constructor
  · intro h
    cases h with
    | lit _ ht => exact ht
    | esc _ _ _ => exact absurd rfl hc
  · exact fun h => UrlTokens.lit hc h

theorem UrlTokens_cons_esc {c1 c2 : Nat} {rest : List Nat}
    (h1 : isHexDigit c1 = true) (h2 : isHexDigit c2 = true) :
    UrlTokens (37 :: c1 :: c2 :: rest) ↔ UrlTokens rest := by
  constructor
  · intro h
    cases h with
    | lit hne _ => exact absurd rfl hne
    | esc _ _ ht => exact ht
  · exact fun h => UrlTokens.esc h1 h2 h

theorem not_UrlTokens_short {rest : List Nat} (hshort : rest.length < 2) :
    ¬ UrlTokens (37 :: rest) := by
  intro h
  cases h with
  | lit hne _ => exact absurd rfl hne
  | esc _ _ _ => simp at hshort; omega

theorem not_UrlTokens_badHex {c1 c2 : Nat} {rest : List Nat}
    (hbad : ¬ (isHexDigit c1 = true ∧ isHexDigit c2 = true)) :
    ¬ UrlTokens (37 :: c1 :: c2 :: rest) := by
  intro h
  cases h with
  | lit hne _ => exact absurd rfl hne
  | esc ha hb _ => exact hbad ⟨ha, hb⟩

/-! ### Step equations for the two blob decoders and the URL decoder -/

/-- The byte emitted for a simple two-character escape. -/
def escoVal (e : Nat) : Nat :=
  if e = 92 then 92 else if e = 110 then 10 else if e = 114 then 13
  else if e = 116 then 9 else 0

namespace DataURIFileSystem

theorem DBE_nil (i : Nat) : DecodeBlobEscapes i [] = .ok [] := rfl

theorem DBE_lit {c : Nat} (hc : c ≠ 92) (i : Nat) (rest : List Nat) :
    DecodeBlobEscapes i (c :: rest) = (c :: ·) <$> DecodeBlobEscapes (i + 1) rest := by
  rw [DecodeBlobEscapes.eq_def]; simp [hc]

theorem DBE_trail (i : Nat) : DecodeBlobEscapes i [92] = .error .trailingEscape := by
  rw [DecodeBlobEscapes.eq_def]; simp

theorem DBE_esc {e : Nat} (he : e = 92 ∨ e = 110 ∨ e = 114 ∨ e = 116 ∨ e = 48)
    (i : Nat) (rest : List Nat) :
    DecodeBlobEscapes i (92 :: e :: rest) =
      (escoVal e :: ·) <$> DecodeBlobEscapes (i + 2) rest := by
  rcases he with rfl | rfl | rfl | rfl | rfl <;>
    (rw [DecodeBlobEscapes.eq_def]; simp [escoVal])

theorem DBE_badEsc {e : Nat}
    (he : ¬ (e = 92 ∨ e = 110 ∨ e = 114 ∨ e = 116 ∨ e = 48)) (hx : e ≠ 120)
    (i : Nat) (rest : List Nat) :
    DecodeBlobEscapes i (92 :: e :: rest) = .error (.badEscapeChar e i) := by
  push_neg at he
  obtain ⟨h1, h2, h3, h4, h5⟩ := he
  rw [DecodeBlobEscapes.eq_def]; simp [h1, h2, h3, h4, h5, hx]

theorem DBE_hex {c1 c2 v : Nat} (hs : strtol2 c1 c2 = some v) (i : Nat)
    (rest : List Nat) :
    DecodeBlobEscapes i (92 :: 120 :: c1 :: c2 :: rest) =
      (v :: ·) <$> DecodeBlobEscapes (i + 4) rest := by
  rw [DecodeBlobEscapes.eq_def]; simp [hs]

theorem DBE_hexBad {c1 c2 : Nat} (hs : strtol2 c1 c2 = none) (i : Nat)
    (rest : List Nat) :
    DecodeBlobEscapes i (92 :: 120 :: c1 :: c2 :: rest) =
      .error (.badHexEscape c1 c2 i) := by
  rw [DecodeBlobEscapes.eq_def]; simp [hs]

theorem DBE_hexShort0 (i : Nat) :
    DecodeBlobEscapes i [92, 120] = .error (.incompleteHexEscape i) := by
  rw [DecodeBlobEscapes.eq_def]; simp

theorem DBE_hexShort1 (i c1 : Nat) :
    DecodeBlobEscapes i [92, 120, c1] = .error (.incompleteHexEscape i) := by
  rw [DecodeBlobEscapes.eq_def]; simp

theorem DUE_nil (i : Nat) : DecodeURLEncoded i [] = .ok [] := rfl

theorem DUE_lit {c : Nat} (hc : c ≠ 37) (i : Nat) (rest : List Nat) :
    DecodeURLEncoded i (c :: rest) = (c :: ·) <$> DecodeURLEncoded (i + 1) rest := by
  rw [DecodeURLEncoded.eq_def]; simp [hc]

theorem DUE_esc {c1 c2 d1 d2 : Nat} (h1 : hexDigitVal? c1 = some d1)
    (h2 : hexDigitVal? c2 = some d2) (i : Nat) (rest : List Nat) :
    DecodeURLEncoded i (37 :: c1 :: c2 :: rest) =
      ((d1 * 16 + d2) :: ·) <$> DecodeURLEncoded (i + 3) rest := by
  rw [DecodeURLEncoded.eq_def]; simp [h1, h2]

theorem DUE_badHex {c1 c2 : Nat}
    (hbad : ¬ (isHexDigit c1 = true ∧ isHexDigit c2 = true)) (i : Nat)
    (rest : List Nat) :
    DecodeURLEncoded i (37 :: c1 :: c2 :: rest) =
      .error (.badPercentHex c1 c2 i) := by
  rw [DecodeURLEncoded.eq_def]
  rcases hd1 : hexDigitVal? c1 with _ | d1 <;> rcases hd2 : hexDigitVal? c2 with _ | d2 <;>
    simp [hd1, hd2]
  exact absurd ⟨by simp [isHexDigit, hd1], by simp [isHexDigit, hd2]⟩ hbad

theorem DUE_short0 (i : Nat) :
    DecodeURLEncoded i [37] = .error (.incompletePercent i) := by
  rw [DecodeURLEncoded.eq_def]; simp

theorem DUE_short1 (i c1 : Nat) :
    DecodeURLEncoded i [37, c1] = .error (.incompletePercent i) := by
  rw [DecodeURLEncoded.eq_def]; simp

end DataURIFileSystem

theorem DBS_nil (i : Nat) : decodeBlobScalarAux i [] = .ok [] := rfl

theorem DBS_lit {c : Nat} (hc : c ≠ 92) (i : Nat) (rest : List Nat) :
    decodeBlobScalarAux i (c :: rest) =
      (c :: ·) <$> decodeBlobScalarAux (i + 1) rest := by
  rw [decodeBlobScalarAux.eq_def]; simp [hc]

theorem DBS_trail (i : Nat) : decodeBlobScalarAux i [92] = .ok [92] := by
  rw [decodeBlobScalarAux.eq_def]; simp

theorem DBS_esc {e : Nat} (he : e = 92 ∨ e = 110 ∨ e = 114 ∨ e = 116 ∨ e = 48)
    (i : Nat) (rest : List Nat) :
    decodeBlobScalarAux i (92 :: e :: rest) =
      (escoVal e :: ·) <$> decodeBlobScalarAux (i + 2) rest := by
  rcases he with rfl | rfl | rfl | rfl | rfl <;>
    (rw [decodeBlobScalarAux.eq_def]; simp [escoVal])

theorem DBS_badEsc {e : Nat}
    (he : ¬ (e = 92 ∨ e = 110 ∨ e = 114 ∨ e = 116 ∨ e = 48)) (hx : e ≠ 120)
    (i : Nat) (rest : List Nat) :
    decodeBlobScalarAux i (92 :: e :: rest) = .error (.badEscapeChar e i) := by
  push_neg at he
  obtain ⟨h1, h2, h3, h4, h5⟩ := he
  rw [decodeBlobScalarAux.eq_def]; simp [h1, h2, h3, h4, h5, hx]

theorem DBS_hex {c1 c2 v : Nat} (hs : strtol2 c1 c2 = some v) (i : Nat)
    (rest : List Nat) :
    decodeBlobScalarAux i (92 :: 120 :: c1 :: c2 :: rest) =
      (v :: ·) <$> decodeBlobScalarAux (i + 4) rest := by
  rw [decodeBlobScalarAux.eq_def]; simp [hs]

theorem DBS_hexBad {c1 c2 : Nat} (hs : strtol2 c1 c2 = none) (i : Nat)
    (rest : List Nat) :
    decodeBlobScalarAux i (92 :: 120 :: c1 :: c2 :: rest) =
      .error (.badHexEscape c1 c2 i) := by
  rw [decodeBlobScalarAux.eq_def]; simp [hs]

theorem DBS_hexShort0 (i : Nat) :
    decodeBlobScalarAux i [92, 120] = .error (.incompleteHexEscape i) := by
  rw [decodeBlobScalarAux.eq_def]; simp

theorem DBS_hexShort1 (i c1 : Nat) :
    decodeBlobScalarAux i [92, 120, c1] = .error (.incompleteHexEscape i) := by
  rw [decodeBlobScalarAux.eq_def]; simp

theorem DecodeBlobEscapes_ok_iff : ∀ (l : List Nat) (i : Nat),
    (∃ out, DataURIFileSystem.DecodeBlobEscapes i l = .ok out) ↔ BlobTokens l := by
  suffices H : ∀ (fuel : Nat) (l : List Nat), l.length ≤ fuel → ∀ i,
      ((∃ out, DataURIFileSystem.DecodeBlobEscapes i l = .ok out) ↔ BlobTokens l) from
    fun l i => H l.length l le_rfl i
  intro fuel
  induction fuel with
  | zero =>
    intro l hl i
    have hnil : l = [] := List.eq_nil_of_length_eq_zero (Nat.le_zero.mp hl)
    subst hnil
    exact ⟨fun _ => BlobTokens.nil, fun _ => ⟨[], rfl⟩⟩
  | succ fuel ih =>
    intro l hl i
    cases l with
    | nil => exact ⟨fun _ => BlobTokens.nil, fun _ => ⟨[], rfl⟩⟩
    | cons c rest =>
      by_cases hc : c = 92
      · subst hc
        cases rest with
        | nil =>
          constructor
          · rintro ⟨out, hout⟩
            rw [DataURIFileSystem.DBE_trail] at hout
            exact Except.noConfusion hout
          · intro h; exact absurd h not_BlobTokens_trailing
        | cons e rest₂ =>
          have hlen₂ : rest₂.length ≤ fuel := by simp at hl; omega
          by_cases he : e = 92 ∨ e = 110 ∨ e = 114 ∨ e = 116 ∨ e = 48
          · simp only [DataURIFileSystem.DBE_esc he]
            rw [exists_ok_map, ih rest₂ hlen₂ (i + 2), BlobTokens_cons_esc he]
          · by_cases hx : e = 120
            · subst hx
              cases rest₂ with
              | nil =>
                constructor
                · rintro ⟨out, hout⟩
                  rw [DataURIFileSystem.DBE_hexShort0] at hout
                  exact Except.noConfusion hout
                · intro h; exact absurd h (not_BlobTokens_shortHex (by simp))
              | cons c1 rest₂' =>
                cases rest₂' with
                | nil =>
                  constructor
                  · rintro ⟨out, hout⟩
                    rw [DataURIFileSystem.DBE_hexShort1] at hout
                    exact Except.noConfusion hout
                  · intro h; exact absurd h (not_BlobTokens_shortHex (by simp))
                | cons c2 rest₃ =>
                  have hlen₃ : rest₃.length ≤ fuel := by simp at hl; omega
                  rcases hs : strtol2 c1 c2 with _ | v
                  · constructor
                    · rintro ⟨out, hout⟩
                      rw [DataURIFileSystem.DBE_hexBad hs] at hout
                      exact Except.noConfusion hout
                    · intro h; exact absurd h (not_BlobTokens_badHex hs)
                  · simp only [DataURIFileSystem.DBE_hex hs]
                    rw [exists_ok_map, ih rest₃ hlen₃ (i + 4), BlobTokens_cons_hex hs]
            · constructor
              · rintro ⟨out, hout⟩
                rw [DataURIFileSystem.DBE_badEsc he hx] at hout
                exact Except.noConfusion hout
              · intro h; exact absurd h (not_BlobTokens_badEscape he hx)
      · have hlen : rest.length ≤ fuel := by simp at hl; omega
        simp only [DataURIFileSystem.DBE_lit hc]
        rw [exists_ok_map, ih rest hlen (i + 1), BlobTokens_cons_lit hc]

theorem decodeBlobScalarAux_ok_iff : ∀ (l : List Nat) (i : Nat),
    (∃ out, decodeBlobScalarAux i l = .ok out) ↔ BlobTokensScalar l := by
  suffices H : ∀ (fuel : Nat) (l : List Nat), l.length ≤ fuel → ∀ i,
      ((∃ out, decodeBlobScalarAux i l = .ok out) ↔ BlobTokensScalar l) from
    fun l i => H l.length l le_rfl i
  intro fuel
  induction fuel with
  | zero =>
    intro l hl i
    have hnil : l = [] := List.eq_nil_of_length_eq_zero (Nat.le_zero.mp hl)
    subst hnil
    exact ⟨fun _ => BlobTokensScalar.nil, fun _ => ⟨[], rfl⟩⟩
  | succ fuel ih =>
    intro l hl i
    cases l with
    | nil => exact ⟨fun _ => BlobTokensScalar.nil, fun _ => ⟨[], rfl⟩⟩
    | cons c rest =>
      by_cases hc : c = 92
      · subst hc
        cases rest with
        | nil =>
          exact ⟨fun _ => BlobTokensScalar.trail, fun _ => ⟨[92], DBS_trail i⟩⟩
        | cons e rest₂ =>
          have hlen₂ : rest₂.length ≤ fuel := by simp at hl; omega
          by_cases he : e = 92 ∨ e = 110 ∨ e = 114 ∨ e = 116 ∨ e = 48
          · simp only [DBS_esc he]
            rw [exists_ok_map, ih rest₂ hlen₂ (i + 2), BlobTokensScalar_cons_esc he]
          · by_cases hx : e = 120
            · subst hx
              cases rest₂ with
              | nil =>
                constructor
                · rintro ⟨out, hout⟩
                  rw [DBS_hexShort0] at hout
                  exact Except.noConfusion hout
                · intro h; exact absurd h (not_BlobTokensScalar_shortHex (by simp))
              | cons c1 rest₂' =>
                cases rest₂' with
                | nil =>
                  constructor
                  · rintro ⟨out, hout⟩
                    rw [DBS_hexShort1] at hout
                    exact Except.noConfusion hout
                  · intro h; exact absurd h (not_BlobTokensScalar_shortHex (by simp))
                | cons c2 rest₃ =>
                  have hlen₃ : rest₃.length ≤ fuel := by simp at hl; omega
                  rcases hs : strtol2 c1 c2 with _ | v
                  · constructor
                    · rintro ⟨out, hout⟩
                      rw [DBS_hexBad hs] at hout
                      exact Except.noConfusion hout
                    · intro h; exact absurd h (not_BlobTokensScalar_badHex hs)
                  · simp only [DBS_hex hs]
                    rw [exists_ok_map, ih rest₃ hlen₃ (i + 4),
                      BlobTokensScalar_cons_hex hs]
            · constructor
              · rintro ⟨out, hout⟩
                rw [DBS_badEsc he hx] at hout
                exact Except.noConfusion hout
              · intro h; exact absurd h (not_BlobTokensScalar_badEscape he hx)
      · have hlen : rest.length ≤ fuel := by simp at hl; omega
        simp only [DBS_lit hc]
        rw [exists_ok_map, ih rest hlen (i + 1), BlobTokensScalar_cons_lit hc]

theorem DecodeURLEncoded_ok_iff : ∀ (l : List Nat) (i : Nat),
    (∃ out, DataURIFileSystem.DecodeURLEncoded i l = .ok out) ↔ UrlTokens l := by
  suffices H : ∀ (fuel : Nat) (l : List Nat), l.length ≤ fuel → ∀ i,
      ((∃ out, DataURIFileSystem.DecodeURLEncoded i l = .ok out) ↔ UrlTokens l) from
    fun l i => H l.length l le_rfl i
  intro fuel
  induction fuel with
  | zero =>
    intro l hl i
    have hnil : l = [] := List.eq_nil_of_length_eq_zero (Nat.le_zero.mp hl)
    subst hnil
    exact ⟨fun _ => UrlTokens.nil, fun _ => ⟨[], rfl⟩⟩
  | succ fuel ih =>
    intro l hl i
    cases l with
    | nil => exact ⟨fun _ => UrlTokens.nil, fun _ => ⟨[], rfl⟩⟩
    | cons c rest =>
      by_cases hc : c = 37
      · subst hc
        cases rest with
        | nil =>
          constructor
          · rintro ⟨out, hout⟩
            rw [DataURIFileSystem.DUE_short0] at hout
            exact Except.noConfusion hout
          · intro h; exact absurd h (not_UrlTokens_short (by simp))
        | cons c1 rest' =>
          cases rest' with
          | nil =>
            constructor
            · rintro ⟨out, hout⟩
              rw [DataURIFileSystem.DUE_short1] at hout
              exact Except.noConfusion hout
            · intro h; exact absurd h (not_UrlTokens_short (by simp))
          | cons c2 rest₂ =>
            have hlen₂ : rest₂.length ≤ fuel := by simp at hl; omega
            by_cases hhex : isHexDigit c1 = true ∧ isHexDigit c2 = true
            · obtain ⟨hh1, hh2⟩ := hhex
              obtain ⟨d1, hd1⟩ := Option.isSome_iff_exists.mp hh1
              obtain ⟨d2, hd2⟩ := Option.isSome_iff_exists.mp hh2
              simp only [DataURIFileSystem.DUE_esc hd1 hd2]
              rw [exists_ok_map, ih rest₂ hlen₂ (i + 3), UrlTokens_cons_esc hh1 hh2]
            · constructor
              · rintro ⟨out, hout⟩
                rw [DataURIFileSystem.DUE_badHex hhex] at hout
                exact Except.noConfusion hout
              · intro h; exact absurd h (not_UrlTokens_badHex hhex)
      · have hlen : rest.length ≤ fuel := by simp at hl; omega
        simp only [DataURIFileSystem.DUE_lit hc]
        rw [exists_ok_map, ih rest hlen (i + 1), UrlTokens_cons_lit hc]

theorem blobTokens_agree {l : List Nat} (h : BlobTokens l) : ∀ i j,
    ∃ out, DataURIFileSystem.DecodeBlobEscapes i l = .ok out ∧
      decodeBlobScalarAux j l = .ok out := by
  induction h with
  | nil => exact fun i j => ⟨[], rfl, rfl⟩
  | lit hc _ ih =>
    intro i j
    obtain ⟨out, h1, h2⟩ := ih (i + 1) (j + 1)
    exact ⟨_ :: out, by rw [DataURIFileSystem.DBE_lit hc, h1]; rfl,
      by rw [DBS_lit hc, h2]; rfl⟩
  | esc he _ ih =>
    intro i j
    obtain ⟨out, h1, h2⟩ := ih (i + 2) (j + 2)
    exact ⟨escoVal _ :: out, by rw [DataURIFileSystem.DBE_esc he, h1]; rfl,
      by rw [DBS_esc he, h2]; rfl⟩
  | hex hs _ ih =>
    intro i j
    obtain ⟨out, h1, h2⟩ := ih (i + 4) (j + 4)
    exact ⟨_ :: out, by rw [DataURIFileSystem.DBE_hex hs, h1]; rfl,
      by rw [DBS_hex hs, h2]; rfl⟩

theorem strtol2_of_hex {c1 c2 d1 d2 : Nat} (h1 : hexDigitVal? c1 = some d1)
    (h2 : hexDigitVal? c2 = some d2) : strtol2 c1 c2 = some (d1 * 16 + d2) := by
  unfold strtol2
  simp [h1, h2]

theorem PDS_lit {c : Nat} (hc : c ≠ 37) (rest : List Nat) :
    percentDecodeScalar (c :: rest) = c :: percentDecodeScalar rest := by
  rw [percentDecodeScalar.eq_def]; simp [hc]

theorem PDS_esc {c1 c2 v : Nat} (hs : strtol2 c1 c2 = some v) (rest : List Nat) :
    percentDecodeScalar (37 :: c1 :: c2 :: rest) = v :: percentDecodeScalar rest := by
  rw [percentDecodeScalar.eq_def]; simp [hs]

theorem urlTokens_agree {l : List Nat} (h : UrlTokens l) : ∀ i,
    DataURIFileSystem.DecodeURLEncoded i l = .ok (percentDecodeScalar l) := by
  induction h with
  | nil => exact fun i => rfl
  | lit hc _ ih =>
    intro i
    rw [DataURIFileSystem.DUE_lit hc, ih (i + 1), PDS_lit hc]
    rfl
  | esc hh1 hh2 _ ih =>
    intro i
    obtain ⟨d1, hd1⟩ := Option.isSome_iff_exists.mp hh1
    obtain ⟨d2, hd2⟩ := Option.isSome_iff_exists.mp hh2
    rw [DataURIFileSystem.DUE_esc hd1 hd2, ih (i + 3),
      PDS_esc (strtol2_of_hex hd1 hd2)]
    rfl

theorem DecodeDataUri_percent (meta data : List Nat) (hnc : 44 ∉ meta)
    (hnb : containsSeq (bytes ";base64") meta = false) :
    DecodeDataUri (bytes "data:" ++ (meta ++ 44 :: data)) =
      .ok (percentDecodeScalar data) := by
  unfold DecodeDataUri
  rw [isPrefixOf_append (bytes "data:") (meta ++ 44 :: data)]
  have hsplit : splitComma (bytes "data:" ++ (meta ++ 44 :: data)) =
      some (bytes "data:" ++ meta, data) := by
    rw [show bytes "data:" ++ (meta ++ 44 :: data) =
        (bytes "data:" ++ meta) ++ 44 :: data from (List.append_assoc _ _ _).symm]
    refine splitComma_append data ?_
    intro hmem
    rcases List.mem_append.mp hmem with h | h
    · revert h; decide
    · exact hnc h
  have hdrop : (bytes "data:" ++ meta).drop 5 = meta := by
    have h := List.drop_left (bytes "data:") meta
    rwa [show (bytes "data:").length = 5 from rfl] at h
  simp only [if_true, hsplit, hdrop, hnb]
  simp

/-- C2 (corrected): characterization of both blob-escape decoders. The
filesystem parser succeeds exactly on `BlobTokens` — so a `\` before a
character outside the escape set, a trailing `\`, a `\x` with fewer than
two following characters, and a `\x` whose two following characters
`strtol` does not consume are all errors — while the scalar `from_blob_uri`
loop additionally accepts a single trailing `\`, emitting it literally.
On the common language both decoders produce the same content. The last
conjunct exhibits the `strtol` leniency: `\x+5` (not two hex digits)
decodes to byte 5 rather than erroring. -/
theorem blob_decode_malformed_characterization :
    (∀ (l : List Nat) (i : Nat),
        (∃ out, DataURIFileSystem.DecodeBlobEscapes i l = .ok out) ↔ BlobTokens l) ∧
    (∀ (l : List Nat) (i : Nat),
        (∃ out, decodeBlobScalarAux i l = .ok out) ↔ BlobTokensScalar l) ∧
    (∀ (l : List Nat), BlobTokens l → ∀ i j, ∃ out,
        DataURIFileSystem.DecodeBlobEscapes i l = .ok out ∧
        decodeBlobScalarAux j l = .ok out) ∧
    DataURIFileSystem.DecodeBlobEscapes 0 [92, 120, 43, 53] = .ok [5] :=
  ⟨DecodeBlobEscapes_ok_iff, decodeBlobScalarAux_ok_iff,
    fun _ h i j => blobTokens_agree h i j, rfl⟩

/-- C2 counterexample: `from_blob_uri` on `data+blob:a\` (a trailing
backslash, which the claim says must raise a decode error) succeeds and
returns the content `a\`. -/
theorem blob_decode_trailing_backslash_cex :
    DecodeBlobUri (bytes "data+blob:a" ++ [92]) = .ok [97, 92] := rfl

/-- Witness for C2 at the concrete input `\na` (escape then literal). -/
theorem blob_decode_malformed_witness :
    ∃ out, DataURIFileSystem.DecodeBlobEscapes 0 [92, 110, 97] = Except.ok out :=
  (blob_decode_malformed_characterization.1 [92, 110, 97] 0).mpr
    (BlobTokens.esc (by omega) (BlobTokens.lit (by omega) BlobTokens.nil))

/-- C3 (corrected): the filesystem's percent decoder succeeds exactly on
`UrlTokens` (every `%` followed by two hex digits), erroring on every
malformed `%`; on that language it agrees with the scalar decoder's loop.
The scalar `from_data_uri` never errors in its percent branch: it returns
`percentDecodeScalar data` for every non-base64 payload, passing malformed
`%` sequences through literally; and it inherits `strtol` leniency, so
`%+5` silently decodes to byte 5. -/
theorem percent_decode_characterization :
    (∀ (l : List Nat) (i : Nat),
        (∃ out, DataURIFileSystem.DecodeURLEncoded i l = .ok out) ↔ UrlTokens l) ∧
    (∀ (l : List Nat), UrlTokens l → ∀ i,
        DataURIFileSystem.DecodeURLEncoded i l = .ok (percentDecodeScalar l)) ∧
    (∀ meta data : List Nat, 44 ∉ meta →
        containsSeq (bytes ";base64") meta = false →
        DecodeDataUri (bytes "data:" ++ (meta ++ 44 :: data)) =
          .ok (percentDecodeScalar data)) ∧
    percentDecodeScalar (bytes "%+5") = [5] :=
  ⟨DecodeURLEncoded_ok_iff, fun _ h i => urlTokens_agree h i,
    DecodeDataUri_percent, rfl⟩

/-- C3 counterexample: `from_data_uri` on `data:,%zz` (malformed percent
escape, which the claim says must raise a decode error) succeeds and
returns `%zz` literally; the filesystem decoder rejects the same payload. -/
theorem percent_decode_scalar_silent_cex :
    DecodeDataUri (bytes "data:,%zz") = .ok (bytes "%zz") ∧
    DataURIFileSystem.DecodeURLEncoded 0 (bytes "%zz") =
      .error (.badPercentHex 122 122 0) :=
  ⟨rfl, rfl⟩

/-- Witness for C3 at the concrete input `%41a`. -/
theorem percent_decode_characterization_witness :
    DataURIFileSystem.DecodeURLEncoded 0 (bytes "%41a") =
      .ok (percentDecodeScalar (bytes "%41a")) := by
  apply percent_decode_characterization.2.1
  show UrlTokens (37 :: 52 :: 49 :: 97 :: [])
  exact UrlTokens.esc (by decide) (by decide)
    (UrlTokens.lit (by decide) UrlTokens.nil)

/-! ## Auto-encode selection (C4) -/

/-- A byte that disqualifies raw varchar form: a control byte other than
`\n`, `\r`, `\t`, or `0x7F`. -/
def unsafeForVarchar (c : Nat) : Bool :=
  decide ((c < 32 ∧ c ≠ 10 ∧ c ≠ 13 ∧ c ≠ 9) ∨ c = 127)

/-- A byte `EncodeScalarfsUri` counts as needing escaping: a backslash or
an unsafe byte. -/
def needsEscape (c : Nat) : Bool := decide (c = 92) || unsafeForVarchar c

theorem scalarfsScan_spec (l : List Nat) : ∀ (b : Bool) (k : Nat),
    l.foldl scalarfsScanStep (b, k) =
      (b && !l.any unsafeForVarchar, k + l.countP needsEscape) := by
  induction l with
  | nil => intro b k; simp
  | cons c rest ih =>
    intro b k
    have hstep : ∀ st : Bool × Nat, (c :: rest).foldl scalarfsScanStep st =
        rest.foldl scalarfsScanStep (scalarfsScanStep st c) := fun _ => rfl
    rw [hstep, ih]
    by_cases h92 : c = 92
    · subst h92
      simp [scalarfsScanStep, unsafeForVarchar, needsEscape, List.countP_cons]
      omega
    · by_cases hctl : c < 32 ∧ c ≠ 10 ∧ c ≠ 13 ∧ c ≠ 9
      · have hu : unsafeForVarchar c = true := by simp [unsafeForVarchar]; omega
        have hs : scalarfsScanStep (b, k) c = (false, k + 1) := by
          simp [scalarfsScanStep, h92, hctl]
        rw [hs]
        simp [needsEscape, hu, h92, List.countP_cons, List.any_cons]
        omega
      · by_cases h127 : c = 127
        · subst h127
          simp [scalarfsScanStep, unsafeForVarchar, needsEscape, List.countP_cons]
          omega
        · have hu : unsafeForVarchar c = false := by
            simp [unsafeForVarchar]; omega
          have hs : scalarfsScanStep (b, k) c = (b, k) := by
            simp [scalarfsScanStep, h92, hctl, h127]
          rw [hs]
          simp [needsEscape, hu, h92, List.countP_cons, List.any_cons]

theorem countP_needsEscape (l : List Nat) :
    l.countP needsEscape =
      l.countP (fun c => decide (c = 92)) + l.countP unsafeForVarchar := by
  induction l with
  | nil => rfl
  | cons c rest ih =>
    by_cases h92 : c = 92
    · subst h92
      simp [List.countP_cons, needsEscape, unsafeForVarchar, ih]
      omega
    · by_cases hu : unsafeForVarchar c = true
      · simp [List.countP_cons, needsEscape, h92, hu, ih]
        omega
      · simp only [Bool.not_eq_true] at hu
        simp [List.countP_cons, needsEscape, h92, hu, ih]

/-- C4: the auto-selecting encoder `to_scalarfs_uri` emits the varchar form
whenever no byte is unsafe (regardless of how many backslashes the content
holds); otherwise, with E the number of backslashes plus the number of
unsafe bytes, it emits the blob form when `E * 10 < |C|` and the base64
data form when `E * 10 ≥ |C|`. -/
theorem auto_encode_selection (C : List Nat) :
    (C.any unsafeForVarchar = false → EncodeScalarfsUri C = EncodeVarcharUri C) ∧
    (C.any unsafeForVarchar = true →
      ((C.countP (fun c => decide (c = 92)) + C.countP unsafeForVarchar) * 10 <
          C.length → EncodeScalarfsUri C = EncodeBlobUri C) ∧
      (¬ (C.countP (fun c => decide (c = 92)) + C.countP unsafeForVarchar) * 10 <
          C.length → EncodeScalarfsUri C = EncodeDataUri C)) := by
  have hscan := scalarfsScan_spec C true 0
  have hcnt := countP_needsEscape C
  constructor
  · intro hsafe
    unfold EncodeScalarfsUri
    rw [hscan]
    simp [hsafe]
  · intro hnotsafe
    constructor
    · intro hlt
      unfold EncodeScalarfsUri
      rw [hscan]
      simp [hnotsafe]
      intro h
      rw [hcnt] at h
      exfalso
      omega
    · intro hge
      unfold EncodeScalarfsUri
      rw [hscan]
      simp [hnotsafe]
      intro h
      rw [hcnt] at h
      exfalso
      omega

/-- Witness for C4: the content `[1]` (one unsafe byte, E = 1, length 1)
selects the base64 data form. -/
theorem auto_encode_selection_witness :
    EncodeScalarfsUri [1] = EncodeDataUri [1] :=
  ((auto_encode_selection [1]).2 (by decide)).2 (by decide)

/-- C10: the data-URI filesystem's existence probe returns true exactly
when one of the three markers is a prefix of the path; in particular the
malformed URI `data:x` (no comma) reports as existing even though opening
it raises a decode error. -/
theorem data_uri_file_exists :
    (∀ p : List Nat, DataURIFileSystem.FileExists p =
      ((bytes "data:").isPrefixOf p || (bytes "data+varchar:").isPrefixOf p ||
        (bytes "data+blob:").isPrefixOf p)) ∧
    DataURIFileSystem.FileExists (bytes "data:x") = true ∧
    DataURIFileSystem.OpenFileContent (bytes "data:x") = .error .missingComma :=
  ⟨fun _ => rfl, rfl, rfl⟩

/-! ## The variable filesystem (`variable_filesystem.cpp`) -/

/-- The stored session values the external store can hold, as a tagged
variant. Modelled from the spec: the host's `Value` type is external;
§3/§9 describe it as text, binary, or a list of text/binary, and the host
permits other types (modelled here by an integer payload) as well as
NULL. `vlist` keeps a child-type-validity flag and optional (nullable)
elements, each element reduced to its string form. -/
inductive SVal where
  | vstr (s : List Char)
  | vblob (s : List Char)
  | vlist (childOk : Bool) (elems : List (Option (List Char)))
  | vint (n : Int)
  | vnull
  deriving DecidableEq

/-- Modelled from the spec: the host `Value::ToString`, which renders any
non-null value as text (text and binary payloads print as themselves, an
integer prints its decimal form, a list prints bracketed). -/
def SVal.toStr : SVal → List Char
  | .vstr s => s
  | .vblob s => s
  | .vint n => (toString n).data
  | .vlist _ es =>
    '[' :: (List.intercalate (cs ", ") (es.map (fun e => e.getD (cs "NULL")))) ++ [']']
  | .vnull => []

/-- `Value::IsNull`. -/
def SVal.isNull : SVal → Bool
  | .vnull => true
  | _ => false

/-- The session variable store (`config.user_variables`), with its
iteration order. -/
abbrev VarStore := List (List Char × SVal)

/-- `config.GetUserVariable(name, result)`. -/
def lookupVar (store : VarStore) (n : List Char) : Option SVal :=
  (store.find? (fun e => decide (e.1 = n))).map (·.2)

/-- `config.SetUserVariable(name, value)`: replace in place when the key
is present, insert otherwise. -/
def SetUserVariable (store : VarStore) (n : List Char) (v : SVal) : VarStore :=
  if store.any (fun e => decide (e.1 = n)) then
    store.map (fun e => if e.1 = n then (n, v) else e)
  else store ++ [(n, v)]

namespace VariableFileSystem

/-- `CanHandleFile`: the two variable markers. -/
def CanHandleFile (p : List Char) : Bool :=
  (cs "variable:").isPrefixOf p || (cs "tmp_variable:").isPrefixOf p

/-- `ExtractVariableName`: `variable:foo ↦ foo`,
`tmp_variable:foo ↦ tmp_foo`. -/
def ExtractVariableName (p : List Char) : List Char :=
  if (cs "tmp_variable:").isPrefixOf p then cs "tmp_" ++ p.drop 13
  else p.drop 9

/-- The errors `OpenFile`'s read path raises. -/
inductive VarErr where
  | notFound (n : List Char)
  | nullValue (n : List Char)
  deriving DecidableEq

/-- `OpenFile`'s read path (lines 107-118): look the variable up, fail on
absent or NULL, otherwise serve `result.ToString()` — no type check. -/
def OpenFileRead (store : VarStore) (path : List Char) :
    Except VarErr (List Char) :=
  match lookupVar store (ExtractVariableName path) with
  | none => .error (.notFound (ExtractVariableName path))
  | some v =>
    if v.isNull then .error (.nullValue (ExtractVariableName path))
    else .ok v.toStr

/-- `VariableWriteHandle::Close`: an empty buffer writes nothing;
otherwise classify by embedded NUL and store. -/
def WriteHandleClose (store : VarStore) (varName buffer : List Char) : VarStore :=
  if buffer.isEmpty then store
  else
    SetUserVariable store varName
      (if buffer.any (fun c => decide (c = Char.ofNat 0)) then SVal.vblob buffer
       else SVal.vstr buffer)

end VariableFileSystem

theorem find?_map_replace (rest : VarStore) (n m : List Char) (v : SVal)
    (hne : m ≠ n) :
    List.find? (fun e => decide (e.1 = m))
        (rest.map (fun e => if e.1 = n then (n, v) else e)) =
      List.find? (fun e => decide (e.1 = m)) rest := by
  induction rest with
  | nil => rfl
  | cons e rest ih =>
    by_cases he : e.1 = n
    · simp only [List.map_cons, if_pos he]
      rw [List.find?_cons_of_neg _
          (by simp only [decide_eq_true_eq]; exact fun hh => hne hh.symm),
        List.find?_cons_of_neg _
          (by simp only [decide_eq_true_eq]; rw [he]; exact fun hh => hne hh.symm),
        ih]
    · simp only [List.map_cons, if_neg he]
      by_cases hm : e.1 = m
      · rw [List.find?_cons_of_pos _ (by simp [hm]),
          List.find?_cons_of_pos _ (by simp [hm])]
      · rw [List.find?_cons_of_neg _ (by simp [hm]),
          List.find?_cons_of_neg _ (by simp [hm]), ih]

theorem find?_map_replace_same (rest : VarStore) (n : List Char) (v : SVal)
    (hmem : rest.any (fun e => decide (e.1 = n)) = true) :
    List.find? (fun e => decide (e.1 = n))
        (rest.map (fun e => if e.1 = n then (n, v) else e)) = some (n, v) := by
  induction rest with
  | nil => simp at hmem
  | cons e rest ih =>
    by_cases he : e.1 = n
    · simp only [List.map_cons, if_pos he]
      rw [List.find?_cons_of_pos _ (by simp)]
    · simp only [List.map_cons, if_neg he]
      rw [List.find?_cons_of_neg _ (by simp [he])]
      apply ih
      simp only [List.any_cons, Bool.or_eq_true, decide_eq_true_eq] at hmem
      rcases hmem with h | h
      · exact absurd h he
      · exact h

theorem find?_none_of_not_any (l : VarStore) (n : List Char)
    (hmem : ¬ l.any (fun e => decide (e.1 = n)) = true) :
    List.find? (fun e => decide (e.1 = n)) l = none := by
  rw [List.find?_eq_none]
  intro x hx
  simp only [decide_eq_true_eq]
  intro hxn
  exact hmem (List.any_eq_true.mpr ⟨x, hx, by simp [hxn]⟩)

theorem lookupVar_set_same (store : VarStore) (n : List Char) (v : SVal) :
    lookupVar (SetUserVariable store n v) n = some v := by
  unfold SetUserVariable lookupVar
  by_cases hmem : store.any (fun e => decide (e.1 = n)) = true
  · rw [if_pos hmem, find?_map_replace_same store n v hmem]
    rfl
  · rw [if_neg hmem, List.find?_append, find?_none_of_not_any store n hmem]
    simp [List.find?]

theorem lookupVar_set_other (store : VarStore) (n m : List Char) (v : SVal)
    (hne : m ≠ n) :
    lookupVar (SetUserVariable store n v) m = lookupVar store m := by
  unfold SetUserVariable lookupVar
  by_cases hmem : store.any (fun e => decide (e.1 = n)) = true
  · rw [if_pos hmem, find?_map_replace store n m v hne]
  · rw [if_neg hmem, List.find?_append]
    have hd : (decide ((n : List Char) = m)) = false := by
      simp only [decide_eq_false_iff_not]
      exact fun hh => hne hh.symm
    have hsingle : List.find? (fun e => decide (e.1 = m)) [(n, v)] = none := by
      simp [List.find?, hd]
    rw [hsingle]
    cases List.find? (fun e => decide (e.1 = m)) store <;> rfl

theorem extract_name_plain (n : List Char) :
    VariableFileSystem.ExtractVariableName (cs "variable:" ++ n) = n := by
  unfold VariableFileSystem.ExtractVariableName
  rw [show ((cs "tmp_variable:").isPrefixOf (cs "variable:" ++ n)) = false from rfl]
  simp only [Bool.false_eq_true, if_false]
  have h := List.drop_left (cs "variable:") n
  rwa [show (cs "variable:").length = 9 from rfl] at h

theorem extract_name_tmp (n : List Char) :
    VariableFileSystem.ExtractVariableName (cs "tmp_variable:" ++ n) =
      cs "tmp_" ++ n := by
  unfold VariableFileSystem.ExtractVariableName
  rw [isPrefixOf_append (cs "tmp_variable:") n]
  simp only [if_true]
  have h := List.drop_left (cs "tmp_variable:") n
  rw [show (cs "tmp_variable:").length = 13 from rfl] at h
  rw [h]

/-- C5 (corrected): opening `variable:name` or `tmp_variable:name` for
reading fails with a not-found error when the variable is absent and a
null-value error when it is present but NULL; but the code performs no
type check at all — every other stored value, whatever its type, is
converted with `ToString` and the open succeeds with that content. -/
theorem variable_open_read_behavior (store : VarStore) (n : List Char) :
    (VariableFileSystem.ExtractVariableName (cs "variable:" ++ n) = n ∧
      VariableFileSystem.ExtractVariableName (cs "tmp_variable:" ++ n) =
        cs "tmp_" ++ n) ∧
    (lookupVar store n = none →
      VariableFileSystem.OpenFileRead store (cs "variable:" ++ n) =
        .error (.notFound n)) ∧
    (lookupVar store n = some SVal.vnull →
      VariableFileSystem.OpenFileRead store (cs "variable:" ++ n) =
        .error (.nullValue n)) ∧
    (∀ v : SVal, lookupVar store n = some v → v.isNull = false →
      VariableFileSystem.OpenFileRead store (cs "variable:" ++ n) =
        .ok v.toStr) := by
  refine ⟨⟨extract_name_plain n, extract_name_tmp n⟩, ?_, ?_, ?_⟩
  · intro habs
    unfold VariableFileSystem.OpenFileRead
    rw [extract_name_plain n, habs]
  · intro hnull
    unfold VariableFileSystem.OpenFileRead
    rw [extract_name_plain n, hnull]
    rfl
  · intro v hv hnn
    unfold VariableFileSystem.OpenFileRead
    rw [extract_name_plain n, hv]
    simp [hnn]

/-- C5 counterexample: with the integer 42 stored under `x` (a type that
is neither text, binary, nor a list), opening `variable:x` succeeds with
content `42` instead of raising a type-mismatch error. -/
theorem variable_open_no_type_check_cex :
    VariableFileSystem.OpenFileRead [(cs "x", SVal.vint 42)] (cs "variable:x") =
      .ok (cs "42") := rfl

/-- Witness for C5: the not-found branch at an empty store. -/
theorem variable_open_read_behavior_witness :
    VariableFileSystem.OpenFileRead [] (cs "variable:x") =
      .error (.notFound (cs "x")) :=
  (variable_open_read_behavior [] (cs "x")).2.1 rfl

/-- C8: closing a variable write handle with an empty accumulated buffer
leaves the store completely unchanged — in particular an existing value
under the same name survives — and only a close with a non-empty buffer
sets the variable (to a blob when the buffer holds a NUL byte, text
otherwise), leaving every other name untouched. -/
theorem empty_write_close_noop :
    (∀ (store : VarStore) (varName : List Char),
        VariableFileSystem.WriteHandleClose store varName [] = store) ∧
    (∀ (store : VarStore) (varName buffer : List Char), buffer ≠ [] →
        lookupVar (VariableFileSystem.WriteHandleClose store varName buffer)
            varName =
          some (if buffer.any (fun c => decide (c = Char.ofNat 0)) then
            SVal.vblob buffer else SVal.vstr buffer) ∧
        ∀ m : List Char, m ≠ varName →
          lookupVar (VariableFileSystem.WriteHandleClose store varName buffer) m =
            lookupVar store m) := by
  constructor
  · intro store varName
    rfl
  · intro store varName buffer hne
    have hnotempty : buffer.isEmpty = false := by
      cases buffer with
      | nil => exact absurd rfl hne
      | cons c rest => rfl
    unfold VariableFileSystem.WriteHandleClose
    rw [hnotempty]
    simp only [Bool.false_eq_true, if_false]
    exact ⟨lookupVar_set_same store varName _,
      fun m hm => lookupVar_set_other store varName m _ hm⟩

/-- Witness for C8: an empty close at a one-entry store returns it
unchanged. -/
theorem empty_write_close_noop_witness :
    VariableFileSystem.WriteHandleClose [(cs "x", SVal.vstr (cs "old"))]
        (cs "x") [] = [(cs "x", SVal.vstr (cs "old"))] :=
  empty_write_close_noop.1 [(cs "x", SVal.vstr (cs "old"))] (cs "x")

/-! ## The decompression filesystem (`decompress_filesystem.cpp`) -/

/-- Result of `ZSTD_getFrameContentSize`: error, unknown, or a size. -/
inductive FrameSize where
  | sizeErr
  | unknown
  | known (n : Nat)

/-- Modelled from the spec: the external zstd codec API consumed by
`DecompressContent` — the frame-size probe, single-shot decompression
into a buffer of the declared size, and the streaming loop; a decompress
call either yields bytes or an error message. -/
structure ZstdApi where
  frameContentSize : List Nat → FrameSize
  decompress : List Nat → Nat → Except (List Char) (List Nat)
  streamDecompress : List Nat → Except (List Char) (List Nat)

/-- The error conditions of the ZSTD branch. -/
inductive DecompressErr where
  /-- "Content is not in zstd format" -/
  | notZstd
  /-- "Invalid zstd frame header" -/
  | badFrameHeader
  /-- single-shot decompression failure, with the codec's message -/
  | decompressFailed (msg : List Char)
  /-- streaming decompression failure, with the codec's message -/
  | streamFailed (msg : List Char)
  deriving DecidableEq

/-- The first four bytes read little-endian — the `memcpy` of
`compressed.data()` into a `uint32_t`. -/
def readLE32 : List Nat → Nat
  | b0 :: b1 :: b2 :: b3 :: _ => b0 + b1 * 256 + b2 * 65536 + b3 * 16777216
  | _ => 0

/-- `DecompressContent`, ZSTD case (lines 58-127): empty content returns
empty, then the 4-byte magic `0xFD2FB528` is validated before any call
into the codec. -/
def DecompressContentZstd (api : ZstdApi) (compressed : List Nat) :
    Except DecompressErr (List Nat) :=
  if compressed.isEmpty then .ok []
  else if compressed.length < 4 then .error .notZstd
  else if readLE32 compressed ≠ 0xFD2FB528 then .error .notZstd
  else
    match api.frameContentSize compressed with
    | .sizeErr => .error .badFrameHeader
    | .known nsize =>
      match api.decompress compressed nsize with
      | .ok out => .ok out
      | .error msg => .error (.decompressFailed msg)
    | .unknown =>
      match api.streamDecompress compressed with
      | .ok out => .ok out
      | .error msg => .error (.streamFailed msg)

/-- C9 (corrected): empty buffered content opens successfully as empty
content, skipping the magic check; any non-empty content shorter than
four bytes, or whose first four bytes are not the little-endian magic
`0xFD2FB528`, fails with the not-zstd format error — and since the result
is the same for every codec implementation, no decompression is ever
attempted on such content. -/
theorem zstd_magic_validation :
    (∀ api : ZstdApi, DecompressContentZstd api [] = .ok []) ∧
    (∀ (api : ZstdApi) (compressed : List Nat), compressed ≠ [] →
      compressed.length < 4 ∨ readLE32 compressed ≠ 0xFD2FB528 →
      DecompressContentZstd api compressed = .error .notZstd) := by
  constructor
  · intro api; rfl
  · intro api compressed hne hbad
    unfold DecompressContentZstd
    have hemp : compressed.isEmpty = false := by
      cases compressed with
      | nil => exact absurd rfl hne
      | cons c rest => rfl
    rw [hemp]
    simp only [Bool.false_eq_true, if_false]
    rcases hbad with h | h
    · rw [if_pos h]
    · by_cases hlen : compressed.length < 4
      · rw [if_pos hlen]
      · rw [if_neg hlen, if_pos h]

/-- C9 counterexample: empty underlying content (certainly shorter than
four bytes, so the claim demands a format error) opens successfully with
empty content under any codec. -/
theorem zstd_empty_content_cex :
    DecompressContentZstd
        ⟨fun _ => FrameSize.unknown, fun _ _ => .error [], fun _ => .error []⟩
        [] = .ok [] := rfl

/-- Witness for C9 at the four wrong-magic bytes `[1, 2, 3, 4]`. -/
theorem zstd_magic_validation_witness :
    DecompressContentZstd
        ⟨fun _ => FrameSize.unknown, fun _ _ => .error [], fun _ => .error []⟩
        [1, 2, 3, 4] = .error .notZstd :=
  zstd_magic_validation.2 _ [1, 2, 3, 4] (by decide) (Or.inr (by decide))

/-! ## The path-variable filesystem (`pathvariable_filesystem.cpp`) -/

/-- `PathVariableValue`: a modifier value, literal or `$`-indirect. -/
structure PVValue where
  value : List Char
  isVariable : Bool

/-- The fields of `ParsedPathVariablePath` that `Glob` consumes: the
variable-name token, one flag per modifier bit, and the two modifier
values. -/
structure ParsedPVP where
  variableName : List Char
  noGlob : Bool
  search : Bool
  ignoreMissing : Bool
  append : Bool
  prepend : Bool
  passthruScalarfs : Bool
  passthruExplicit : Bool
  noCache : Bool
  appendValue : PVValue
  prependValue : PVValue
  isTemp : Bool

/-- Modelled from the spec: the host dispatcher the glob engine delegates
to — `duckdb::Glob` name matching, `parent_fs.Glob`, and
`parent_fs.FileExists`. -/
structure ParentFS where
  nameMatch : List Char → List Char → Bool
  glob : List Char → List (List Char)
  fileExists : List Char → Bool

/-- Modelled from the spec: the host `FileSystem::HasGlob` — a string
contains a glob metacharacter `*`, `?` or `[`. -/
def hasGlobChars (p : List Char) : Bool :=
  p.any (fun c => decide (c = '*' ∨ c = '?' ∨ c = '['))

/-- The `join_paths` lambda (lines 317-334): collapse a doubled separator,
insert one if neither side has one, else concatenate. -/
def joinPaths (base suffix : List Char) : List Char :=
  if base.isEmpty then suffix
  else if suffix.isEmpty then base
  else
    if (base.getLastD ' ' = '/' ∨ base.getLastD ' ' = '\\') ∧
        (suffix.headD ' ' = '/' ∨ suffix.headD ' ' = '\\') then
      base ++ suffix.drop 1
    else if ¬ (base.getLastD ' ' = '/' ∨ base.getLastD ' ' = '\\') ∧
        ¬ (suffix.headD ' ' = '/' ∨ suffix.headD ' ' = '\\') then
      base ++ '/' :: suffix
    else base ++ suffix

/-- The `is_scalarfs_path` lambda: the fixed inline-content, variable and
path-variable markers. -/
def isScalarfsPath (p : List Char) : Bool :=
  (cs "data:").isPrefixOf p || (cs "data+varchar:").isPrefixOf p ||
    (cs "data+blob:").isPrefixOf p || (cs "variable:").isPrefixOf p ||
    (cs "pathvariable:").isPrefixOf p

/-- Index of the first occurrence of `needle` (`string::find`). -/
def findSeqIdx? (needle : List Char) : List Char → Option Nat
  | [] => if needle.isEmpty then some 0 else none
  | c :: rest =>
    if needle.isPrefixOf (c :: rest) then some 0
    else (· + 1) <$> findSeqIdx? needle rest

/-- The `has_explicit_protocol` lambda: `"://"` found at a position
strictly between 0 and 20. -/
def hasExplicitProtocol (p : List Char) : Bool :=
  match findSeqIdx? (cs "://") p with
  | some pos => decide (0 < pos ∧ pos < 20)
  | none => false

/-- The `should_passthru` lambda, parameterized by the two passthrough
flags. -/
def shouldPassthru (ps pe : Bool) (p : List Char) : Bool :=
  (ps && isScalarfsPath p) || (pe && hasExplicitProtocol p)

/-- The prepend step (lines 391-408): skipped when the resolved prefix
list is empty; otherwise a double loop, prefixes outer and candidates
inner, with the passthrough test inside the inner loop. -/
def PrependStep (prependValues : List (List Char)) (passthru : List Char → Bool)
    (paths : List (List Char)) : List (List Char) :=
  if prependValues.isEmpty then paths
  else prependValues.flatMap (fun pre =>
    paths.map (fun p => if passthru p then p else joinPaths pre p))

/-- The append step (lines 411-428): candidates outer, suffixes inner,
with the passthrough test in the outer loop. -/
def AppendStep (appendValues : List (List Char)) (passthru : List Char → Bool)
    (paths : List (List Char)) : List (List Char) :=
  if appendValues.isEmpty then paths
  else paths.flatMap (fun p =>
    if passthru p then [p] else appendValues.map (fun suf => joinPaths p suf))

/-- The `extract_paths_from_value` lambda: `none` models its `false`
return (null value or wrong type); null list elements are skipped. -/
def extractPathsFromValue : SVal → Option (List (List Char))
  | .vnull => none
  | .vlist childOk elems => if childOk then some (elems.filterMap id) else none
  | .vstr s => some [s]
  | .vblob s => some [s]
  | .vint _ => none

/-- Errors raised while resolving a modifier value. -/
inductive PVErr where
  | modifierVarNotFound (n : List Char)
  | modifierVarNull (n : List Char)
  | modifierVarBadType (n : List Char)
  deriving DecidableEq

/-- The `resolve_value` lambda (lines 279-314): empty value resolves to
no prefixes, a literal to itself, a `$`-reference through the store with
type checking. -/
def resolveValue (store : VarStore) (pv : PVValue) :
    Except PVErr (List (List Char)) :=
  if pv.value.isEmpty then .ok []
  else if ¬ pv.isVariable then .ok [pv.value]
  else
    match lookupVar store pv.value with
    | none => .error (.modifierVarNotFound pv.value)
    | some v =>
      if v.isNull then .error (.modifierVarNull pv.value)
      else
        match extractPathsFromValue v with
        | some ps => .ok ps
        | none => .error (.modifierVarBadType pv.value)

/-- Level 1 (lines 366-388): resolve a single variable when the name token
has no glob characters — absent, null or wrong-typed variables defer by
yielding the original path — otherwise enumerate the store and collect the
values of every variable whose name matches the pattern. -/
def globLevel1 (store : VarStore) (fs : ParentFS) (pattern path : List Char) :
    List (List Char) :=
  if ¬ hasGlobChars pattern then
    match lookupVar store pattern with
    | none => [path]
    | some v =>
      match extractPathsFromValue v with
      | none => [path]
      | some ps => ps
  else
    store.flatMap (fun e =>
      if fs.nameMatch e.1 pattern then (extractPathsFromValue e.2).getD [] else [])

/-- Level 2 (lines 431-443): expand candidates containing glob characters
through the host dispatcher, unless `no-glob` is set. -/
def level2Expand (fs : ParentFS) (noGlob : Bool) (paths : List (List Char)) :
    List (List Char) :=
  paths.flatMap (fun p => if ¬ noGlob = true ∧ hasGlobChars p = true then fs.glob p else [p])

/-- Byte-wise lexicographic comparison of paths (`std::string` `<`). -/
def pathLt : List Char → List Char → Bool
  | [], [] => false
  | [], _ :: _ => true
  | _ :: _, [] => false
  | a :: as, b :: bs => if a < b then true else if b < a then false else pathLt as bs

def insertSorted (x : List Char) : List (List Char) → List (List Char)
  | [] => [x]
  | y :: rest => if pathLt x y then x :: y :: rest else y :: insertSorted x rest

/-- The final `std::sort` by path (line 469), modelled as a sort by the
same comparison. -/
def sortPaths (l : List (List Char)) : List (List Char) := l.foldr insertSorted []

namespace PathVariableFileSystem

/-- The candidate list just before the search/ignore-missing/sort steps:
level 1, prepend, append, then level-2 expansion. -/
def GlobExpanded (store : VarStore) (fs : ParentFS) (parsed : ParsedPVP)
    (path : List Char) : Except PVErr (List (List Char)) := do
  let c1 := globLevel1 store fs parsed.variableName path
  let passthru := shouldPassthru parsed.passthruScalarfs parsed.passthruExplicit
  let c2 ←
    if parsed.prepend then do
      let vs ← resolveValue store parsed.prependValue
      pure (PrependStep vs passthru c1)
    else pure c1
  let c3 ←
    if parsed.append then do
      let vs ← resolveValue store parsed.appendValue
      pure (AppendStep vs passthru c2)
    else pure c2
  pure (level2Expand fs parsed.noGlob c3)

/-- `Glob` (lines 205-472), from the parsed path onward: expand, then
`search` returns the first existing candidate in expansion order (or
nothing), else `no-missing` filters and the result is sorted. -/
def Glob (store : VarStore) (fs : ParentFS) (parsed : ParsedPVP)
    (path : List Char) : Except PVErr (List (List Char)) := do
  let expanded ← GlobExpanded store fs parsed path
  if parsed.search then
    pure (match expanded.find? fs.fileExists with
      | some p => [p]
      | none => [])
  else
    pure (sortPaths
      (if parsed.ignoreMissing then expanded.filter fs.fileExists else expanded))

end PathVariableFileSystem

theorem countP_not_add {α : Type} (f : α → Bool) (l : List α) :
    l.countP f + l.countP (fun x => ! f x) = l.length := by
  induction l with
  | nil => rfl
  | cons a rest ih =>
    by_cases h : f a = true
    · simp [List.countP_cons, h]
      omega
    · simp only [Bool.not_eq_true] at h
      simp [List.countP_cons, h]
      omega

theorem flatMap_map_length {α β γ : Type} (l : List α) (paths : List β)
    (g : α → β → γ) :
    (l.flatMap (fun a => paths.map (g a))).length = l.length * paths.length := by
  induction l with
  | nil => simp
  | cons a rest ih =>
    simp [ih]
    ring

theorem prependStep_length (pres : List (List Char)) (f : List Char → Bool)
    (paths : List (List Char)) (hne : pres ≠ []) :
    (PrependStep pres f paths).length = pres.length * paths.length := by
  unfold PrependStep
  rw [if_neg (by simpa using hne)]
  exact flatMap_map_length pres paths (fun pre p => if f p then p else joinPaths pre p)

/-- C6 (corrected): when the prepend modifier resolves to zero prefix
strings the candidate set is left unchanged; when it resolves to P ≥ 1
prefixes, the step produces P × N joined candidates plus P copies of each
passthrough candidate — P × (N + K) in total — because the passthrough
exemption is applied inside the prefix loop rather than outside it
(prefixes are the outer iteration, candidates the inner). -/
theorem prepend_step_sizing (pres : List (List Char)) (f : List Char → Bool)
    (paths : List (List Char)) :
    (pres = [] → PrependStep pres f paths = paths) ∧
    (pres ≠ [] →
      (PrependStep pres f paths).length =
        pres.length * paths.countP (fun p => ! f p) +
          pres.length * paths.countP f) := by
  constructor
  · intro h; subst h; rfl
  · intro hne
    rw [prependStep_length pres f paths hne]
    have hcnt := countP_not_add f paths
    have : paths.length = paths.countP (fun p => ! f p) + paths.countP f := by omega
    rw [this]
    ring

/-- C6 counterexample: two prefixes and one passthrough candidate (the
claim predicts P × N + K = 2 × 0 + 1 = 1 result, the passthrough
appearing once); the step instead emits the passthrough candidate twice,
once per prefix. -/
theorem prepend_passthru_duplicated_cex :
    shouldPassthru true false (cs "data:x") = true ∧
    PrependStep [cs "/a", cs "/b"] (shouldPassthru true false) [cs "data:x"] =
      [cs "data:x", cs "data:x"] ∧
    (PrependStep [cs "/a", cs "/b"] (shouldPassthru true false)
        [cs "data:x"]).count (cs "data:x") = 2 :=
  ⟨rfl, rfl, rfl⟩

/-- Witness for C6: two prefixes over one passthrough and one ordinary
candidate give 2 × 1 + 2 × 1 = 4 results. -/
theorem prepend_step_sizing_witness :
    (PrependStep [cs "/a", cs "/b"] (shouldPassthru true false)
        [cs "data:x", cs "f.csv"]).length =
      2 * List.countP (fun p => ! shouldPassthru true false p)
          [cs "data:x", cs "f.csv"] +
        2 * List.countP (shouldPassthru true false) [cs "data:x", cs "f.csv"] :=
  (prepend_step_sizing [cs "/a", cs "/b"] (shouldPassthru true false)
    [cs "data:x", cs "f.csv"]).2 (by decide)

theorem find?_first {α : Type} (p : α → Bool) :
    ∀ (l : List α) (k : Nat) (hk : k < l.length),
      p (l.get ⟨k, hk⟩) = true →
      (∀ (j : Nat) (hj : j < k), p (l.get ⟨j, Nat.lt_trans hj hk⟩) = false) →
      l.find? p = some (l.get ⟨k, hk⟩) := by
  intro l
  induction l with
  | nil => intro k hk; exact absurd hk (by simp)
  | cons a rest ih =>
    intro k hk hp hfirst
    cases k with
    | zero => exact List.find?_cons_of_pos _ hp
    | succ k =>
      have h0 : p a = false := hfirst 0 (Nat.succ_pos k)
      rw [List.find?_cons_of_neg _ (by simp [h0])]
      exact ih k (by simpa using hk) hp (fun j hj => hfirst (j + 1) (by omega))

/-- C7: when the search modifier is set, `Glob` returns at most one
result; it returns empty (not an error) when no expanded candidate
exists; any returned path exists and comes from the expanded candidate
list; and the one returned is the first existing candidate in pre-sort
expansion order. -/
theorem search_first_existing (store : VarStore) (fs : ParentFS)
    (parsed : ParsedPVP) (path : List Char) (expanded : List (List Char))
    (hs : parsed.search = true)
    (hexp : PathVariableFileSystem.GlobExpanded store fs parsed path =
      .ok expanded) :
    ∃ res, PathVariableFileSystem.Glob store fs parsed path = .ok res ∧
      res.length ≤ 1 ∧
      ((∀ p ∈ expanded, fs.fileExists p = false) → res = []) ∧
      (∀ p ∈ res, fs.fileExists p = true ∧ p ∈ expanded) ∧
      (∀ (k : Nat) (hk : k < expanded.length),
        fs.fileExists (expanded.get ⟨k, hk⟩) = true →
        (∀ (j : Nat) (hj : j < k),
          fs.fileExists (expanded.get ⟨j, Nat.lt_trans hj hk⟩) = false) →
        res = [expanded.get ⟨k, hk⟩]) := by
  refine ⟨(match expanded.find? fs.fileExists with
    | some p => [p]
    | none => []), ?_, ?_, ?_, ?_, ?_⟩
  · unfold PathVariableFileSystem.Glob
    rw [hexp]
    simp [hs, Except.bind]
  · cases hf : expanded.find? fs.fileExists <;> simp [hf]
  · intro hnone
    have hfn : expanded.find? fs.fileExists = none :=
      List.find?_eq_none.mpr (by intro x hx; simp [hnone x hx])
    rw [hfn]
  · intro p hp
    cases hf : expanded.find? fs.fileExists with
    | none => rw [hf] at hp; simp at hp
    | some q =>
      rw [hf] at hp
      simp at hp
      subst hp
      exact ⟨List.find?_some hf, List.mem_of_find?_eq_some hf⟩
  · intro k hk hex hfirst
    rw [find?_first fs.fileExists expanded k hk hex hfirst]

/-- A store, host filesystem and parsed path for the C7 witness: the
variable `v` holds the list `["/b", "/a"]`, both paths exist, and only the
search modifier is set. -/
def searchWitnessStore : VarStore :=
  [(cs "v", SVal.vlist true [some (cs "/b"), some (cs "/a")])]

def searchWitnessFS : ParentFS :=
  ⟨fun _ _ => false, fun _ => [], fun p => decide (p = cs "/b" ∨ p = cs "/a")⟩

def searchWitnessParsed : ParsedPVP :=
  ⟨cs "v", false, true, false, false, false, false, false, false,
    ⟨[], false⟩, ⟨[], false⟩, false⟩

/-- Witness for C7: both candidates exist, and the result is `/b` — the
first in expansion order, not the lexicographically first (`/a`). -/
theorem search_first_existing_witness :
    PathVariableFileSystem.Glob searchWitnessStore searchWitnessFS
        searchWitnessParsed (cs "pathvariable:search:v") = .ok [cs "/b"] := by
  obtain ⟨res, hres, _, _, _, hfirst⟩ :=
    search_first_existing searchWitnessStore searchWitnessFS searchWitnessParsed
      (cs "pathvariable:search:v") [cs "/b", cs "/a"] rfl rfl
  have h0 := hfirst 0 (by decide) (by decide)
    (fun j hj => absurd hj (Nat.not_lt_zero j))
  rw [h0] at hres
  exact hres

end ScalarFS
